import Mathlib

/-!
Verification of the bdprod data-shaping core.

Shallow embedding of the data-shaping helpers of `src/app.py`:
header normalization and parsing (`get_dataframe`), serialization
(`update_sheet_data`), boolean coercion (`format_boolean_columns`),
and the TTL fetch cache wrapping `load_data`.

Cells of a table are strings, nulls (pandas `NA`/`NaN`) or booleans.
A table is an ordered list of named columns, each an ordered list of
cells; this mirrors a pandas `DataFrame` with unique column names.
-/

namespace BdProd

/-- A cell of a table: a string, a null marker (pandas `NA`/`NaN`),
or a boolean (after coercion). -/
inductive Cell : Type
  | str (s : String)
  | null
  | bool (b : Bool)
  deriving DecidableEq, Repr

/-- A table: ordered named columns, each an ordered list of cells.
Mirrors a pandas `DataFrame`; row alignment is by index. -/
abbrev Table := List (String × List Cell)

/-- Python `str.strip()`: drop leading and trailing whitespace. -/
def pyStrip (s : String) : String :=
  String.mk (((s.data.dropWhile Char.isWhitespace).reverse.dropWhile Char.isWhitespace).reverse)

/-- Python `str.upper()` (ASCII range, all that the repository's
keywords and headers exercise). -/
def pyUpper (s : String) : String :=
  String.mk (s.data.map Char.toUpper)

/-- Python `str.lower()` (ASCII range). -/
def pyLower (s : String) : String :=
  String.mk (s.data.map Char.toLower)

/-- The `if not col.strip(): col = "Unnamed"` empty/whitespace-header
placeholder substitution in `get_dataframe`. -/
def placeholder (s : String) : String :=
  if pyStrip s = "" then "Unnamed" else s

/-- Association-list lookup for the `seen` dict of `get_dataframe`. -/
def lookupSeen : List (String × Nat) → String → Option Nat
  | [], _ => none
  | (k, v) :: rest, key => if k = key then some v else lookupSeen rest key

/-- Association-list update (`seen[col] = n`) for the `seen` dict. -/
def setSeen : List (String × Nat) → String → Nat → List (String × Nat)
  | [], key, n => [(key, n)]
  | (k, v) :: rest, key, n =>
    if k = key then (key, n) :: rest else (k, v) :: setSeen rest key n

/-- The header-uniquifying loop of `get_dataframe` (lines 52–65 of
`app.py`): empty/whitespace cells become `"Unnamed"`; a name already in
`seen` gets suffixed `_<count>` after incrementing its count; a fresh
name is recorded with count 0 and kept unchanged. -/
def uniqueHeaderAux : List (String × Nat) → List String → List String
  | _, [] => []
  | seen, c :: rest =>
    let col := placeholder c
    match lookupSeen seen col with
    | some k =>
      (col ++ "_" ++ toString (k + 1)) :: uniqueHeaderAux (setSeen seen col (k + 1)) rest
    | none =>
      col :: uniqueHeaderAux (setSeen seen col 0) rest

/-- The `unique_header` list as computed by `get_dataframe`. -/
def uniqueHeader (header : List String) : List String :=
  uniqueHeaderAux [] header

/-- Occurrence count of a name in a list of names. -/
def countOcc (n : String) : List String → Nat
  | [] => 0
  | m :: rest => (if m = n then 1 else 0) + countOcc n rest

/-- The spec's wording of header normalization (§4.1): substitute the
placeholder, then scan left to right; the first occurrence of a name is
kept, the (k+1)-st occurrence is suffixed `_k`.  `prev` holds the
post-placeholder names already scanned. -/
def specNormalizeAux : List String → List String → List String
  | _, [] => []
  | prev, c :: rest =>
    let n := placeholder c
    let k := countOcc n prev
    (if k = 0 then n else n ++ "_" ++ toString k) :: specNormalizeAux (n :: prev) rest

/-- Header normalization as the spec words it (reference definition for
the refinement claim about `get_dataframe`'s uniquifier). -/
def specNormalize (header : List String) : List String :=
  specNormalizeAux [] header

/-- Is `sub` a prefix of `l`? (character-list helper for Python's
`in` substring test). -/
def isPrefixChars : List Char → List Char → Bool
  | [], _ => true
  | _ :: _, [] => false
  | a :: as, b :: bs => a = b && isPrefixChars as bs

/-- Does `sub` occur as a contiguous run inside `l`? -/
def occursChars : List Char → List Char → Bool
  | sub, [] => sub.isEmpty
  | sub, c :: rest => isPrefixChars sub (c :: rest) || occursChars sub rest

/-- Python's `sub in s` substring containment. -/
def pyContains (s sub : String) : Bool :=
  occursChars sub.data s.data

/-- The test `any(keyword in col.upper() for keyword in keywords)` — the column
selection test of `format_boolean_columns`. -/
def colMatches (name : String) (keywords : List String) : Bool :=
  keywords.any (fun k => pyContains (pyUpper name) k)

/-- Python `str(x)` on a cell as it reaches the coercion lambda: a
string is itself, pandas `NA` prints as `"<NA>"`, a Python bool prints
as `"True"`/`"False"`. -/
def pyStr : Cell → String
  | .str s => s
  | .null => "<NA>"
  | .bool b => if b then "True" else "False"

/-- The recognized truthy tokens of `format_boolean_columns`:
`["true", "yes", "1", "x", "✓"]`. -/
def truthTokens : List String :=
  ["true", "yes", "1", "x", "✓"]

/-- The test `str(x).strip().lower() in ["true", "yes", "1", "x", "✓"]`. -/
def isTruthy (c : Cell) : Bool :=
  truthTokens.contains (pyLower (pyStrip (pyStr c)))

/-- The cell transform of `format_boolean_columns`:
`True if str(x).strip().lower() in [...] else False`. -/
def coerceCell (c : Cell) : Cell :=
  if isTruthy c then .bool true else .bool false

/-- Function `format_boolean_columns` (lines 140–150 of `app.py`): every column
whose upper-cased name contains a keyword has all its cells coerced to
booleans; other columns are untouched.  The source mutates `df[col]` by
name inside a loop over `df.columns`, which is this per-column rewrite
whenever column names are unique (the data-model invariant). -/
def format_boolean_columns (df : Table) (keywords : List String) : Table :=
  df.map (fun col =>
    if colMatches col.1 keywords then (col.1, col.2.map coerceCell) else col)

/-- One raw fetched cell landing in the DataFrame: a missing cell
(pandas' padding of a short row) is null, an empty string is null
(`df.replace('', pd.NA)`), anything else is kept as a string. -/
def cellOfRaw : Option String → Cell
  | none => .null
  | some s => if s = "" then .null else .str s

/-- Maximum row length of the fetched data rows (the width pandas
infers from a nested list). -/
def maxLen (rows : List (List String)) : Nat :=
  rows.foldr (fun r m => max r.length m) 0

/-- Column `j` onward of the DataFrame built from `rows`: column `j`
holds, for each row, its `j`-th cell (null when the row is too short,
empty strings nulled). -/
def buildCols : List String → List (List String) → Nat → Table
  | [], _, _ => []
  | nm :: ns, rows, j =>
    (nm, rows.map (fun r => cellOfRaw (r.get? j))) :: buildCols ns rows (j + 1)

/-- Function `get_dataframe` (lines 39–77 of `app.py`) as a function of the raw
`worksheet.get_all_values()` result.  Empty fetch → empty table.
Otherwise the first row is normalized into the header and
`pd.DataFrame(data[1:], columns=unique_header)` is built: with no data
rows it has the given columns and no rows; with data rows pandas pads
every row to the maximum row width and then requires that width to
equal the number of columns, raising otherwise — the surrounding
`except` turns that raise into an empty DataFrame.  Finally
`df.replace('', pd.NA)` nulls the empty strings. -/
def get_dataframe (data : List (List String)) : Table :=
  match data with
  | [] => []
  | header :: rows =>
    let uh := uniqueHeader header
    if rows.isEmpty then uh.map (fun n => (n, []))
    else if maxLen rows = uh.length then buildCols uh rows 0
    else []

/-- Serialization of one cell into the flat row-major data of
`update_sheet_data`: `df.fillna('')` maps null to `""`, a string is
itself, and a boolean contributes its Python string form
`"True"`/`"False"` to the string-typed raw row. -/
def serializeCell : Cell → String
  | .null => ""
  | .str s => s
  | .bool b => if b then "True" else "False"

/-- Number of rows of a table (length of its first column; every
column of a well-formed table has this length). -/
def numRows (t : Table) : Nat :=
  match t with
  | [] => 0
  | c :: _ => c.2.length

/-- The rows `df.fillna('').values.tolist()`: one raw row per table row. -/
def serializeRows (t : Table) : List (List String) :=
  (List.range (numRows t)).map (fun i => t.map (fun c => serializeCell (c.2.getD i .null)))

/-- The row construction of `update_sheet_data` (lines 88–93 of
`app.py`): optionally the column names as a leading row, then the
serialized data rows. -/
def serialize (t : Table) (includeHeader : Bool) : List (List String) :=
  if includeHeader then (t.map (·.1)) :: serializeRows t else serializeRows t

/-- Serialize with header, then parse: the round trip named by the
spec's algebraic properties. -/
def roundTrip (t : Table) : Table :=
  get_dataframe (serialize t true)

/-- What one cell becomes across the round trip: serialized to a
string, then read back as a raw cell. -/
def reCell (c : Cell) : Cell :=
  cellOfRaw (some (serializeCell c))

/-- Modelled from the spec: the Fetch Cache state (§4.4, `CacheEntry`
in §3).  The cache itself is `st.cache_data(ttl=300)` from the UI
framework, not part of this repository's sources: it holds the last
stored result with its timestamp. -/
structure CacheState (α : Type) where
  entry : Option (α × Nat)
  deriving DecidableEq, Repr

/-- Modelled from the spec: a cache miss invokes the fetch; a
successful result is stored with a fresh timestamp, a failure
propagates without being cached.  The third component records whether
the fetch was invoked. -/
def fetchStep (now : Nat) (st : CacheState α) (fetchFn : Except ε α) :
    Except ε α × CacheState α × Bool :=
  match fetchFn with
  | .ok v => (.ok v, ⟨some (v, now)⟩, true)
  | .error e => (.error e, st, true)

/-- Modelled from the spec: `get_or_fetch` (§4.4).  A stored result
younger than the TTL is returned without invoking the fetch; otherwise
the fetch runs via `fetchStep`. -/
def getOrFetch (ttl now : Nat) (st : CacheState α) (fetchFn : Except ε α) :
    Except ε α × CacheState α × Bool :=
  match st.entry with
  | some (v, ts) =>
    if now - ts < ttl then (.ok v, st, false) else fetchStep now st fetchFn
  | none => fetchStep now st fetchFn

/-- Modelled from the spec: `invalidate()` (§4.4), realized in `main`
by `st.cache_data.clear()` on the Refresh button. -/
def invalidate (st : CacheState α) : CacheState α :=
  let _ := st
  ⟨none⟩

instance decEqExcept {ε α : Type} [DecidableEq ε] [DecidableEq α] : DecidableEq (Except ε α)
  | .ok x, .ok y =>
    if h : x = y then .isTrue (by rw [h]) else .isFalse (by simp [h])
  | .error x, .error y =>
    if h : x = y then .isTrue (by rw [h]) else .isFalse (by simp [h])
  | .ok _, .error _ => .isFalse (fun hc => Except.noConfusion hc)
  | .error _, .ok _ => .isFalse (fun hc => Except.noConfusion hc)

/-- The remote environment one `load_data` call sees: whether
authentication succeeds (`initialize_gsheets_client` returns a client
or `None`), whether `open_by_key` succeeds, and the outcome of fetching
each worksheet's values (an exception or the raw rows). -/
structure GsEnv : Type where
  authOk : Bool
  openOk : Bool
  sheet1 : Except Unit (List (List String))
  sheet2 : Except Unit (List (List String))
  deriving DecidableEq, Repr

/-- Function `load_data` (lines 106–138 of `app.py`), minus the decorator: every
failure is caught and converted into empty tables and a missing sheets
handle (the `Bool` records whether the handle is present).  The
function never raises. -/
def load_data (env : GsEnv) : Table × Table × Bool :=
  if !env.authOk then ([], [], false)
  else if !env.openOk then ([], [], false)
  else
    ((match env.sheet1 with | .ok d => get_dataframe d | .error _ => []),
     (match env.sheet2 with | .ok d => get_dataframe d | .error _ => []),
     true)

/-- The decorated `load_data`: the TTL-300 cache wrapped around the
body.  Because the body is total, the fetch outcome handed to the
cache is always a success value. -/
def cachedLoadData (st : CacheState (Table × Table × Bool)) (now : Nat) (env : GsEnv) :
    Except Unit (Table × Table × Bool) × CacheState (Table × Table × Bool) × Bool :=
  getOrFetch 300 now st (.ok (load_data env))

theorem lookupSeen_set_self (seen : List (String × Nat)) (key : String) (n : Nat) :
    lookupSeen (setSeen seen key n) key = some n := by
  induction seen with
  | nil => simp [setSeen, lookupSeen]
  | cons p rest ih =>
    obtain ⟨k, v⟩ := p
    by_cases h : k = key
    · simp [setSeen, lookupSeen, h]
    · simp [setSeen, lookupSeen, h, ih]

theorem lookupSeen_set_ne (seen : List (String × Nat)) (key m : String) (n : Nat)
    (h : m ≠ key) : lookupSeen (setSeen seen key n) m = lookupSeen seen m := by
  have h' : key ≠ m := Ne.symm h
  induction seen with
  | nil => simp [setSeen, lookupSeen, h']
  | cons p rest ih =>
    obtain ⟨k, v⟩ := p
    by_cases hk : k = key
    · subst hk; simp [setSeen, lookupSeen, h']
    · simp [setSeen, lookupSeen, hk, ih]

theorem uniqueHeaderAux_eq_specAux (rest : List String) :
    ∀ (seen : List (String × Nat)) (prev : List String),
      (∀ m, lookupSeen seen m =
        if countOcc m prev = 0 then none else some (countOcc m prev - 1)) →
      uniqueHeaderAux seen rest = specNormalizeAux prev rest := by
  induction rest with
  | nil => intro seen prev _; rfl
  | cons c rest ih =>
    intro seen prev hinv
    by_cases h0 : countOcc (placeholder c) prev = 0
    · have hc : lookupSeen seen (placeholder c) = none := by
        simp [hinv (placeholder c), h0]
      simp only [uniqueHeaderAux, specNormalizeAux, hc, h0, if_pos rfl]
      refine congrArg (List.cons (placeholder c)) ?_
      apply ih
      intro m
      by_cases hm : m = placeholder c
      · subst hm
        rw [lookupSeen_set_self]
        have h1 : countOcc (placeholder c) (placeholder c :: prev) = 1 := by
          simp [countOcc, h0]
        rw [h1]
        simp
      · rw [lookupSeen_set_ne _ _ _ _ hm]
        have hcm : placeholder c ≠ m := fun he => hm he.symm
        have h1 : countOcc m (placeholder c :: prev) = countOcc m prev := by
          simp [countOcc, hcm]
        rw [h1, hinv m]
    · have hc : lookupSeen seen (placeholder c) =
          some (countOcc (placeholder c) prev - 1) := by
        simp [hinv (placeholder c), h0]
      have hK : countOcc (placeholder c) prev - 1 + 1 = countOcc (placeholder c) prev :=
        Nat.succ_pred_eq_of_pos (Nat.pos_of_ne_zero h0)
      simp only [uniqueHeaderAux, specNormalizeAux, hc, h0, if_neg h0, hK]
      refine congrArg (List.cons _) ?_
      apply ih
      intro m
      by_cases hm : m = placeholder c
      · subst hm
        rw [lookupSeen_set_self]
        have h1 : countOcc (placeholder c) (placeholder c :: prev) =
            1 + countOcc (placeholder c) prev := by
          simp [countOcc]
        rw [h1, if_neg (by omega)]
        congr 1
        omega
      · rw [lookupSeen_set_ne _ _ _ _ hm]
        have hcm : placeholder c ≠ m := fun he => hm he.symm
        have h1 : countOcc m (placeholder c :: prev) = countOcc m prev := by
          simp [countOcc, hcm]
        rw [h1, hinv m]

theorem uniqueHeader_eq_specNormalize (l : List String) :
    uniqueHeader l = specNormalize l :=
  uniqueHeaderAux_eq_specAux l [] [] (fun m => by simp [lookupSeen, countOcc])

theorem specNormalizeAux_id (l : List String) :
    ∀ prev, l.Nodup → (∀ n ∈ l, pyStrip n ≠ "") → (∀ n ∈ l, countOcc n prev = 0) →
      specNormalizeAux prev l = l := by
  induction l with
  | nil => intros; rfl
  | cons a l ih =>
    intro prev hnd hns hocc
    have hpa : placeholder a = a := by simp [placeholder, hns a (by simp)]
    have h0 : countOcc a prev = 0 := hocc a (by simp)
    simp only [specNormalizeAux, hpa, h0, if_pos rfl]
    refine congrArg (List.cons a) ?_
    apply ih
    · exact hnd.of_cons
    · exact fun n hn => hns n (List.mem_cons_of_mem a hn)
    · intro n hn
      have hne : a ≠ n := fun he => (List.nodup_cons.mp hnd).1 (he ▸ hn)
      simp [countOcc, hne, hocc n (List.mem_cons_of_mem a hn)]

theorem uniqueHeader_id (l : List String) (hnd : l.Nodup)
    (hns : ∀ n ∈ l, pyStrip n ≠ "") : uniqueHeader l = l := by
  rw [uniqueHeader_eq_specNormalize]
  exact specNormalizeAux_id l [] hnd hns (fun n _ => rfl)

/-- C1: the claim says header normalization always yields pairwise
distinct entries, including on inputs that already contain suffixed
names such as `["Name", "Name", "Name_1"]`.  On exactly that input the
uniquifier of `get_dataframe` outputs `["Name", "Name_1", "Name_1"]`,
which has a duplicate — contradicting the function's own docstring
("ensure unique headers").  Length preservation and non-emptiness do
hold on this input; distinctness fails. -/
theorem spec2proof_C1 :
    uniqueHeader ["Name", "Name", "Name_1"] = ["Name", "Name_1", "Name_1"] ∧
    ¬ (uniqueHeader ["Name", "Name", "Name_1"]).Nodup ∧
    (uniqueHeader ["Name", "Name", "Name_1"]).length = 3 ∧
    (∀ s ∈ uniqueHeader ["Name", "Name", "Name_1"], s ≠ "") :=
  ⟨rfl, by decide, rfl, by decide⟩

/-- C7: the header uniquifier of `get_dataframe` computes exactly the
spec's scheme — empty/whitespace cells become `"Unnamed"` first, then
left-to-right the first occurrence of a name is kept and the (k+1)-st
occurrence is suffixed `_k` — and `["Name", "", "Name"]` normalizes to
`["Name", "Unnamed", "Name_1"]`. -/
theorem spec2proof_C7 :
    (∀ l : List String, uniqueHeader l = specNormalize l) ∧
    uniqueHeader ["Name", "", "Name"] = ["Name", "Unnamed", "Name_1"] :=
  ⟨uniqueHeader_eq_specNormalize, rfl⟩

theorem coerceCell_idem (c : Cell) : coerceCell (coerceCell c) = coerceCell c := by
  unfold coerceCell
  by_cases ht : isTruthy c
  · rw [if_pos ht]
    decide
  · rw [if_neg ht]
    decide

theorem coerceCell_reCell_bool (b : Bool) :
    coerceCell (reCell (Cell.bool b)) = Cell.bool b := by
  cases b <;> rfl

theorem format_get? (t : Table) (k : List String) (j : Nat) (nm : String) (cs : List Cell)
    (hj : t.get? j = some (nm, cs)) :
    (format_boolean_columns t k).get? j =
      some (nm, if colMatches nm k then cs.map coerceCell else cs) := by
  unfold format_boolean_columns
  rw [List.get?_map, hj]
  by_cases hm : colMatches nm k <;> simp [hm]

/-- C3: `format_boolean_columns` rewrites exactly the columns whose
upper-cased name contains a keyword, mapping each cell to `true`
precisely when its string form, trimmed and lower-cased, is one of
`{"true", "yes", "1", "x", "✓"}` and to `false` otherwise — null and
empty cells included; the cell `"X"` of a `"FECHA_INICIO"` column under
keyword `"INICIO"` becomes `true`, the sibling `"no"` becomes
`false`. -/
theorem spec2proof_C3 :
    (∀ (t : Table) (k : List String) (j : Nat) (nm : String) (cs : List Cell),
        t.get? j = some (nm, cs) →
        (format_boolean_columns t k).get? j =
          some (nm, if colMatches nm k then cs.map coerceCell else cs)) ∧
    (∀ c, coerceCell c = Cell.bool (isTruthy c)) ∧
    isTruthy Cell.null = false ∧
    isTruthy (Cell.str "") = false ∧
    coerceCell (Cell.str " TRUE ") = Cell.bool true ∧
    coerceCell (Cell.str "0") = Cell.bool false ∧
    format_boolean_columns [("FECHA_INICIO", [Cell.str "X", Cell.str "no"])] ["INICIO"]
      = [("FECHA_INICIO", [Cell.bool true, Cell.bool false])] := by
  refine ⟨format_get?, ?_, rfl, rfl, rfl, rfl, rfl⟩
  intro c
  unfold coerceCell
  by_cases ht : isTruthy c <;> simp [ht]

theorem spec2proof_C3_witness :
    (format_boolean_columns [("FECHA_INICIO", [Cell.str "X", Cell.str "no"])] ["INICIO"]).get? 0
      = some ("FECHA_INICIO", [Cell.bool true, Cell.bool false]) := by
  have h := spec2proof_C3.1 [("FECHA_INICIO", [Cell.str "X", Cell.str "no"])] ["INICIO"] 0
    "FECHA_INICIO" [Cell.str "X", Cell.str "no"] rfl
  exact h.trans (by decide)

/-- C9: boolean coercion preserves the column count and every column's
row count, and leaves every column whose upper-cased name matches no
keyword entirely unchanged. -/
theorem spec2proof_C9 (t : Table) (k : List String) :
    (format_boolean_columns t k).length = t.length ∧
    (∀ j, ((format_boolean_columns t k).get? j).map (fun p => p.2.length)
        = (t.get? j).map (fun p => p.2.length)) ∧
    (∀ j p, t.get? j = some p → colMatches p.1 k = false →
        (format_boolean_columns t k).get? j = some p) := by
  refine ⟨by simp [format_boolean_columns], ?_, ?_⟩
  · intro j
    unfold format_boolean_columns
    rw [List.get?_map]
    cases t.get? j with
    | none => rfl
    | some p => by_cases hm : colMatches p.1 k <;> simp [hm]
  · intro j p hj hm
    unfold format_boolean_columns
    rw [List.get?_map, hj]
    simp [hm]

theorem spec2proof_C9_witness :
    (format_boolean_columns [("A", [Cell.str "x"]), ("B_INICIO", [Cell.str "x"])]
        ["INICIO"]).length = 2 ∧
    (format_boolean_columns [("A", [Cell.str "x"]), ("B_INICIO", [Cell.str "x"])]
        ["INICIO"]).get? 0 = some ("A", [Cell.str "x"]) :=
  ⟨(spec2proof_C9 [("A", [Cell.str "x"]), ("B_INICIO", [Cell.str "x"])] ["INICIO"]).1,
   (spec2proof_C9 [("A", [Cell.str "x"]), ("B_INICIO", [Cell.str "x"])] ["INICIO"]).2.2
     0 ("A", [Cell.str "x"]) rfl rfl⟩

/-- C10: boolean coercion is idempotent — a second application with the
same keywords changes nothing, because `str(True)`/`str(False)` map
back to the same booleans under the token vocabulary. -/
theorem spec2proof_C10 (t : Table) (k : List String) :
    format_boolean_columns (format_boolean_columns t k) k = format_boolean_columns t k := by
  unfold format_boolean_columns
  rw [List.map_map]
  apply List.map_congr_left
  intro p _
  by_cases hm : colMatches p.1 k
  · simp only [Function.comp, hm, if_pos]
    rw [List.map_map]
    refine congrArg (Prod.mk p.1) ?_
    exact List.map_congr_left (fun c _ => coerceCell_idem c)
  · simp [Function.comp, hm]

theorem buildCols_get? (ns : List String) :
    ∀ (rows : List (List String)) (j i : Nat),
      (buildCols ns rows j).get? i =
        (ns.get? i).map (fun nm => (nm, rows.map (fun r => cellOfRaw (r.get? (j + i))))) := by
  induction ns with
  | nil => intro rows j i; simp [buildCols]
  | cons nm ns ih =>
    intro rows j i
    cases i with
    | zero => simp [buildCols]
    | succ i =>
      have h := ih rows (j + 1) i
      rw [show j + 1 + i = j + (i + 1) from by omega] at h
      simpa [buildCols] using h

theorem maxLen_cons (r : List String) (rest : List (List String)) :
    maxLen (r :: rest) = max r.length (maxLen rest) := rfl

theorem maxLen_const (L : Nat) : ∀ (rows : List (List String)), rows ≠ [] →
    (∀ r ∈ rows, r.length = L) → maxLen rows = L := by
  intro rows
  induction rows with
  | nil => intro h; exact absurd rfl h
  | cons r rest ih =>
    intro _ hall
    have hr : r.length = L := hall r (by simp)
    cases rest with
    | nil => simp [maxLen_cons, maxLen, hr]
    | cons r2 rest2 =>
      have hrec : maxLen (r2 :: rest2) = L :=
        ih (by simp) (fun x hx => hall x (List.mem_cons_of_mem r hx))
      rw [maxLen_cons, hr, hrec, Nat.max_self]

theorem serializeRows_length_mem (t : Table) :
    ∀ r ∈ serializeRows t, r.length = t.length := by
  intro r hr
  obtain ⟨i, _, rfl⟩ := List.mem_map.mp hr
  exact List.length_map t _

theorem range_map_getD {α β : Type} (d : α) (f : α → β) : ∀ (l : List α),
    (List.range l.length).map (fun i => f (l.getD i d)) = l.map f := by
  intro l
  induction l with
  | nil => rfl
  | cons a l ih =>
    rw [List.length_cons, List.range_succ_eq_map, List.map_cons, List.map_map]
    have hcomp : ((fun i => f ((a :: l).getD i d)) ∘ Nat.succ) = fun i => f (l.getD i d) := by
      funext i; rfl
    rw [hcomp, ih]
    rfl

theorem roundTrip_eq (t : Table)
    (hnd : (t.map Prod.fst).Nodup)
    (hns : ∀ p ∈ t, pyStrip p.1 ≠ "")
    (hwf : ∀ p ∈ t, p.2.length = numRows t) :
    roundTrip t = t.map (fun p => (p.1, p.2.map reCell)) := by
  have hsname : ∀ n ∈ t.map Prod.fst, pyStrip n ≠ "" := by
    intro n hn
    obtain ⟨p, hp, rfl⟩ := List.mem_map.mp hn
    exact hns p hp
  have huh : uniqueHeader (t.map Prod.fst) = t.map Prod.fst :=
    uniqueHeader_id _ hnd hsname
  show get_dataframe (serialize t true) = _
  rw [serialize, if_pos rfl]
  cases hn : numRows t with
  | zero =>
    have hrows : serializeRows t = [] := by simp [serializeRows, hn]
    rw [hrows]
    show (if ([] : List (List String)).isEmpty then
        (uniqueHeader (t.map Prod.fst)).map (fun n => (n, []))
      else if maxLen [] = (uniqueHeader (t.map Prod.fst)).length then
        buildCols (uniqueHeader (t.map Prod.fst)) [] 0
      else []) = _
    rw [if_pos (show ([] : List (List String)).isEmpty = true from rfl), huh, List.map_map]
    apply List.map_congr_left
    intro p hp
    have h2 : p.2 = [] := List.length_eq_zero.mp (by rw [hwf p hp, hn])
    simp [Function.comp, h2]
  | succ n =>
    have hne : serializeRows t ≠ [] := by simp [serializeRows, hn]
    have hmax : maxLen (serializeRows t) = t.length :=
      maxLen_const t.length _ hne (serializeRows_length_mem t)
    have hulen : (uniqueHeader (t.map Prod.fst)).length = t.length := by
      rw [huh]; exact List.length_map t _
    show (if (serializeRows t).isEmpty then
        (uniqueHeader (t.map Prod.fst)).map (fun nm => (nm, []))
      else if maxLen (serializeRows t) = (uniqueHeader (t.map Prod.fst)).length then
        buildCols (uniqueHeader (t.map Prod.fst)) (serializeRows t) 0
      else []) = _
    rw [if_neg (by simpa [List.isEmpty_iff] using hne), if_pos (by rw [hmax, hulen]), huh]
    apply List.ext_get?
    intro i
    rw [buildCols_get?, List.get?_map, List.get?_map]
    cases ht : t.get? i with
    | none => rfl
    | some p =>
      have hpmem : p ∈ t := List.get?_mem ht
      simp only [Option.map_some']
      refine congrArg some (congrArg (Prod.mk p.1) ?_)
      rw [serializeRows, List.map_map]
      have hinner : ((fun r => cellOfRaw (r.get? (0 + i))) ∘
          fun i2 => t.map fun c => serializeCell (c.2.getD i2 Cell.null)) =
          fun i2 => reCell (p.2.getD i2 Cell.null) := by
        funext i2
        show cellOfRaw ((t.map fun c => serializeCell (c.2.getD i2 Cell.null)).get? (0 + i)) = _
        rw [Nat.zero_add, List.get?_map, ht]
        rfl
      rw [hinner]
      have hplen : numRows t = p.2.length := (hwf p hpmem).symm
      rw [hplen, range_map_getD]

theorem reCell_of_valid (c : Cell) (hb : ∀ b : Bool, c ≠ Cell.bool b)
    (he : c ≠ Cell.str "") : reCell c = c := by
  cases c with
  | null => rfl
  | str s =>
    have hs : s ≠ "" := fun h => he (by rw [h])
    show cellOfRaw (some s) = Cell.str s
    simp [cellOfRaw, hs]
  | bool b => exact absurd rfl (hb b)

/-- C4 counterexample: the table with the single column named `" "`
(non-empty, unique) holding the single string cell `""` satisfies the
claim's hypotheses — unique non-empty column names, no boolean cells —
yet its round trip is `[("Unnamed", [null])]`: the all-whitespace name
is renamed by the normalizer and the empty-string cell comes back as
null. -/
theorem spec2proof_C4_counterexample :
    ((([(" ", [Cell.str ""])] : Table).map Prod.fst).Nodup ∧
      (∀ p ∈ ([(" ", [Cell.str ""])] : Table), p.1 ≠ "") ∧
      (∀ p ∈ ([(" ", [Cell.str ""])] : Table), ∀ c ∈ p.2, ∀ b : Bool, c ≠ Cell.bool b)) ∧
    roundTrip [(" ", [Cell.str ""])] = [("Unnamed", [Cell.null])] ∧
    roundTrip [(" ", [Cell.str ""])] ≠ [(" ", [Cell.str ""])] :=
  ⟨by decide, rfl, by decide⟩

/-- C4 (amended): the round trip `parse ∘ serialize` (header included)
is the identity on every well-formed table whose column names are
unique and not all-whitespace, and whose cells are null or non-empty
strings. -/
theorem spec2proof_C4 (t : Table)
    (hnd : (t.map Prod.fst).Nodup)
    (hns : ∀ p ∈ t, pyStrip p.1 ≠ "")
    (hcell : ∀ p ∈ t, ∀ c ∈ p.2, (∀ b : Bool, c ≠ Cell.bool b) ∧ c ≠ Cell.str "")
    (hwf : ∀ p ∈ t, p.2.length = numRows t) :
    roundTrip t = t := by
  rw [roundTrip_eq t hnd hns hwf]
  have hid : ∀ p ∈ t, (p.1, p.2.map reCell) = id p := by
    intro p hp
    have h2 : p.2.map reCell = p.2 := by
      rw [show p.2.map reCell = p.2.map id from
        List.map_congr_left (fun c hc =>
          reCell_of_valid c (hcell p hp c hc).1 (hcell p hp c hc).2),
        List.map_id]
    rw [h2]
    rfl
  rw [List.map_congr_left hid, List.map_id]

theorem spec2proof_C4_witness :
    roundTrip [("A", [Cell.str "x", Cell.null]), ("B", [Cell.null, Cell.str "y"])] =
      [("A", [Cell.str "x", Cell.null]), ("B", [Cell.null, Cell.str "y"])] :=
  spec2proof_C4 [("A", [Cell.str "x", Cell.null]), ("B", [Cell.null, Cell.str "y"])]
    (by decide) (by decide) (by decide) (by decide)

theorem format_names (t : Table) (k : List String) :
    (format_boolean_columns t k).map Prod.fst = t.map Prod.fst := by
  unfold format_boolean_columns
  rw [List.map_map]
  apply List.map_congr_left
  intro p _
  by_cases hm : colMatches p.1 k <;> simp [Function.comp, hm]

theorem format_numRows (t : Table) (k : List String) :
    numRows (format_boolean_columns t k) = numRows t := by
  cases t with
  | nil => rfl
  | cons p rest =>
    by_cases hm : colMatches p.1 k <;>
      simp [format_boolean_columns, numRows, hm]

theorem format_wf (t : Table) (k : List String)
    (hwf : ∀ p ∈ t, p.2.length = numRows t) :
    ∀ p ∈ format_boolean_columns t k, p.2.length = numRows (format_boolean_columns t k) := by
  intro p hp
  rw [format_numRows]
  obtain ⟨q, hq, rfl⟩ := List.mem_map.mp hp
  by_cases hm : colMatches q.1 k <;> simp [hm, hwf q hq]

theorem format_hns (t : Table) (k : List String)
    (hns : ∀ p ∈ t, pyStrip p.1 ≠ "") :
    ∀ p ∈ format_boolean_columns t k, pyStrip p.1 ≠ "" := by
  intro p hp
  obtain ⟨q, hq, rfl⟩ := List.mem_map.mp hp
  by_cases hm : colMatches q.1 k <;> simp [hm, hns q hq]

theorem coerceCell_bool_form (c : Cell) : coerceCell c = Cell.bool (isTruthy c) := by
  unfold coerceCell
  by_cases ht : isTruthy c <;> simp [ht]

theorem coerce_reCell_coerce (c : Cell) :
    coerceCell (reCell (coerceCell c)) = coerceCell c := by
  rw [coerceCell_bool_form c, coerceCell_reCell_bool]

set_option maxHeartbeats 2000000 in
/-- C8: for a table whose boolean columns were produced by
`format_boolean_columns` (from any source table with unique,
not-all-whitespace column names), serializing, parsing and re-coercing
with the same keyword set leaves every matching column — name and every
boolean cell value — exactly as it was: `"True"`/`"False"` round-trip
back to the same booleans under the token vocabulary. -/
theorem spec2proof_C8 (t0 : Table) (k : List String)
    (hnd : (t0.map Prod.fst).Nodup)
    (hns : ∀ p ∈ t0, pyStrip p.1 ≠ "")
    (hwf : ∀ p ∈ t0, p.2.length = numRows t0) :
    ∀ j p, (format_boolean_columns t0 k).get? j = some p → colMatches p.1 k = true →
      (format_boolean_columns (roundTrip (format_boolean_columns t0 k)) k).get? j
        = some p := by
  intro j p hj hm
  have hnd1 : ((format_boolean_columns t0 k).map Prod.fst).Nodup := by
    rw [format_names]
    exact hnd
  rw [roundTrip_eq (format_boolean_columns t0 k) hnd1
    (format_hns t0 k hns) (format_wf t0 k hwf)]
  have hj' : ((format_boolean_columns t0 k).map (fun q => (q.1, q.2.map reCell))).get? j
      = some (p.1, p.2.map reCell) := by
    rw [List.get?_map, hj]
    rfl
  rw [format_get? _ k j _ _ hj', if_pos hm]
  unfold format_boolean_columns at hj
  rw [List.get?_map] at hj
  obtain ⟨q, hq, hfq⟩ := Option.map_eq_some'.mp hj
  by_cases hmq : colMatches q.1 k
  · rw [if_pos hmq] at hfq
    cases hfq
    rw [List.map_map, List.map_map]
    refine congrArg some (congrArg (Prod.mk q.1) ?_)
    apply List.map_congr_left
    intro c _
    show coerceCell (reCell (coerceCell c)) = coerceCell c
    exact coerce_reCell_coerce c
  · rw [if_neg hmq] at hfq
    cases hfq
    exact absurd hm hmq

theorem spec2proof_C8_witness :
    (format_boolean_columns (roundTrip (format_boolean_columns
        [("FECHA_INICIO", [Cell.str "X", Cell.str "no"])] ["INICIO"])) ["INICIO"]).get? 0
      = some ("FECHA_INICIO", [Cell.bool true, Cell.bool false]) :=
  spec2proof_C8 [("FECHA_INICIO", [Cell.str "X", Cell.str "no"])] ["INICIO"]
    (by decide) (by decide) (by decide) 0
    ("FECHA_INICIO", [Cell.bool true, Cell.bool false]) (by decide) (by decide)

theorem buildCols_length (ns : List String) :
    ∀ rows j, (buildCols ns rows j).length = ns.length := by
  induction ns with
  | nil => intro rows j; rfl
  | cons nm ns ih => intro rows j; simp [buildCols, ih]

/-- C5 counterexample: on the fetch `[["a","b"], ["1","2","3"]]` — one
data row longer than the two-cell header — the claim requires the
excess to be ignored or bundled, leaving a two-column table; pandas
instead raises on the width mismatch and `get_dataframe`'s `except`
returns the empty table, dropping all the data. -/
theorem spec2proof_C5_counterexample :
    get_dataframe [["a", "b"], ["1", "2", "3"]] = ([] : Table) ∧
    get_dataframe [["a", "b"], ["1", "2", "3"]]
      ≠ [("a", [Cell.str "1"]), ("b", [Cell.str "2"])] ∧
    (get_dataframe [["a", "b"], ["1", "2", "3"]]).length ≠ 2 :=
  ⟨rfl, by decide, by decide⟩

/-- C5 (amended): parsing a non-empty ragged fetch never raises, and
the policy is: when the maximum data-row length equals the normalized
header length, every row shorter than the header is padded with null
for its missing trailing cells (cell `(i, j)` is the `j`-th cell of row
`i`, null when absent or empty); when the maximum row length differs
from the header length — in particular when some row is longer than the
header — the pandas constructor raises and the caught exception makes
`get_dataframe` return the empty table. -/
theorem spec2proof_C5 (header : List String) (rows : List (List String)) (hne : rows ≠ []) :
    (maxLen rows = (uniqueHeader header).length →
      (get_dataframe (header :: rows)).length = (uniqueHeader header).length ∧
      ∀ j nm col, (get_dataframe (header :: rows)).get? j = some (nm, col) →
        ∀ i r, rows.get? i = some r →
          col.get? i = some (cellOfRaw (r.get? j)) ∧
          (r.length ≤ j → col.get? i = some Cell.null)) ∧
    (maxLen rows ≠ (uniqueHeader header).length →
      get_dataframe (header :: rows) = []) := by
  have hif : get_dataframe (header :: rows) =
      if maxLen rows = (uniqueHeader header).length then
        buildCols (uniqueHeader header) rows 0
      else [] := by
    show (if rows.isEmpty then (uniqueHeader header).map (fun n => (n, []))
      else if maxLen rows = (uniqueHeader header).length then
        buildCols (uniqueHeader header) rows 0
      else []) = _
    rw [if_neg (by simpa [List.isEmpty_iff] using hne)]
  constructor
  · intro hmax
    rw [hif, if_pos hmax]
    refine ⟨buildCols_length _ _ _, ?_⟩
    intro j nm col hj i r hi
    rw [buildCols_get?] at hj
    obtain ⟨nm', hnm, heq⟩ := Option.map_eq_some'.mp hj
    cases heq
    constructor
    · rw [List.get?_map, hi]
      simp [Nat.zero_add]
    · intro hlen
      rw [List.get?_map, hi]
      have hnone : r.get? (0 + j) = none := List.get?_eq_none.mpr (by omega)
      simp only [Option.map_some']
      rw [hnone]
      rfl
  · intro hmax
    rw [hif, if_neg hmax]

theorem spec2proof_C5_witness :
    (get_dataframe [["a", "b"], ["1"], ["1", "2"]]).length = 2 ∧
    ([Cell.null, Cell.str "2"] : List Cell).get? 0 = some Cell.null := by
  have h := (spec2proof_C5 ["a", "b"] [["1"], ["1", "2"]] (by decide)).1 (by decide)
  exact ⟨h.1.trans (by decide),
    (h.2 1 "b" [Cell.null, Cell.str "2"] (by decide) 0 ["1"] rfl).2 (by decide)⟩

/-- C2 counterexample: authentication fails at time 0, so `load_data`
returns the degraded triple (empty, empty, no handle); the cache stores
it as a normal success.  At time 10 — within the TTL, with the remote
healthy again — the call returns the stored degraded result and the
invocation flag is `false`: the failed invocation's outcome was cached,
the failure did not propagate, and the next call did not fetch
again. -/
theorem spec2proof_C2_counterexample :
    load_data ⟨false, true, .ok [["H"], ["v"]], .ok []⟩ = ([], [], false) ∧
    cachedLoadData ⟨none⟩ 0 ⟨false, true, .ok [["H"], ["v"]], .ok []⟩ =
      (.ok ([], [], false), ⟨some (([], [], false), 0)⟩, true) ∧
    cachedLoadData ⟨some (([], [], false), 0)⟩ 10 ⟨true, true, .ok [["H"], ["v"]], .ok []⟩ =
      (.ok ([], [], false), ⟨some (([], [], false), 0)⟩, false) :=
  ⟨rfl, rfl, rfl⟩

/-- C2 (amended): a failed read never reaches the cache as a failure —
`load_data` catches it and returns the degraded triple (empty, empty,
no handle), which `st.cache_data` stores as an ordinary value; any call
within the TTL then returns the cached degraded result without
invoking the fetch again. -/
theorem spec2proof_C2 (env env2 : GsEnv) (now later : Nat)
    (hfail : env.authOk = false ∨ env.openOk = false) (hfresh : later - now < 300) :
    cachedLoadData ⟨none⟩ now env =
      (.ok ([], [], false), ⟨some (([], [], false), now)⟩, true) ∧
    cachedLoadData ⟨some (([], [], false), now)⟩ later env2 =
      (.ok ([], [], false), ⟨some (([], [], false), now)⟩, false) := by
  have hempty : load_data env = ([], [], false) := by
    rcases hfail with h | h
    · simp [load_data, h]
    · cases ha : env.authOk <;> simp [load_data, h, ha]
  constructor
  · show getOrFetch 300 now ⟨none⟩ (.ok (load_data env)) = _
    rw [hempty]
    rfl
  · show getOrFetch 300 later ⟨some (([], [], false), now)⟩ (.ok (load_data env2)) = _
    unfold getOrFetch
    simp [hfresh]

theorem spec2proof_C2_witness :
    cachedLoadData ⟨some (([], [], false), 5)⟩ 200 ⟨true, true, .ok [], .ok []⟩ =
      (.ok ([], [], false), ⟨some (([], [], false), 5)⟩, false) :=
  (spec2proof_C2 ⟨false, true, .ok [], .ok []⟩ ⟨true, true, .ok [], .ok []⟩ 5 200
    (Or.inl rfl) (by decide)).2

/-- C6: a first call on an empty cache invokes the fetch and stores its
result with the call's timestamp; a second call within the 300-unit TTL
returns the stored result without invoking the fetch (so two calls in
the window fetch exactly once); after an explicit invalidation the next
call invokes the fetch again. -/
theorem spec2proof_C6 (env env2 env3 : GsEnv) (t0 t1 t2 : Nat) (hfresh : t1 - t0 < 300) :
    cachedLoadData ⟨none⟩ t0 env =
      (.ok (load_data env), ⟨some (load_data env, t0)⟩, true) ∧
    cachedLoadData ⟨some (load_data env, t0)⟩ t1 env2 =
      (.ok (load_data env), ⟨some (load_data env, t0)⟩, false) ∧
    cachedLoadData (invalidate ⟨some (load_data env, t0)⟩) t2 env3 =
      (.ok (load_data env3), ⟨some (load_data env3, t2)⟩, true) := by
  refine ⟨rfl, ?_, rfl⟩
  show getOrFetch 300 t1 ⟨some (load_data env, t0)⟩ (.ok (load_data env2)) = _
  unfold getOrFetch
  simp [hfresh]

theorem spec2proof_C6_witness :
    cachedLoadData ⟨some (load_data ⟨true, true, .ok [["H"], ["v"]], .ok []⟩, 0)⟩ 100
        ⟨true, true, .error (), .ok []⟩ =
      (.ok (load_data ⟨true, true, .ok [["H"], ["v"]], .ok []⟩),
       ⟨some (load_data ⟨true, true, .ok [["H"], ["v"]], .ok []⟩, 0)⟩, false) :=
  (spec2proof_C6 ⟨true, true, .ok [["H"], ["v"]], .ok []⟩ ⟨true, true, .error (), .ok []⟩
    ⟨true, true, .ok [], .ok []⟩ 0 100 600 (by decide)).2.1

end BdProd
